import Mathlib

set_option maxHeartbeats 1000000

/-!
Shallow embedding of the lemmy spaCy pipeline component
(src/lemmy/pipe/component.py) and verification of its specification.

The repository adapts a trained lemmatizer into a spaCy pipeline stage.
The adapter iterates the tokens of a document, assigns the pronoun
sentinel lemma to pronoun tokens, and otherwise resolves a lemma via the
wrapped lemmatizer plus a tie-break rule, writing non-empty results back
onto the token.
-/

/-- A spaCy token view: read access to the part-of-speech tag (pos_) and
the surface text (text), and a writable lemma field (lemma_). -/
structure Token where
  pos_ : String
  text : String
  lemma_ : String
  deriving DecidableEq, Repr

/-- spaCy defines a token's orth_ attribute as its verbatim surface text,
identical to its text attribute. -/
def Token.orth_ (t : Token) : String := t.text

/-- The reserved pronoun sentinel lemma, imported in the source from
spacy.symbols as PRON_LEMMA; its value in spaCy is the fixed out-of-band
marker string. -/
def PRON_LEMMA : String := "-PRON-"

/-- The trained lemmatizer interface consumed by the adapter:
lemmatize(pos, word) returns an ordered list of candidate lemmas. -/
abbrev Lemmatizer : Type := String → String → List String

/-- The pipeline component, wrapping a trained lemmatizer held in the
field _internal. -/
structure LemmyPipelineComponent where
  _internal : Lemmatizer

/-- The tie-break method _get_lemma of the component: call
self._internal.lemmatize(token.pos_, token.text); if the candidate list
has length different from 1, return the first candidate different from
token.orth_ when one exists; otherwise (and in the length-1 case) return
lemmas[0].  Indexing an empty list raises in Python; this is modelled by
Option, with none standing for the raised IndexError. -/
def LemmyPipelineComponent._get_lemma (c : LemmyPipelineComponent) (token : Token) :
    Option String :=
  let lemmas := c._internal token.pos_ token.text
  if lemmas.length ≠ 1 then
    match lemmas.find? (fun l => token.orth_ != l) with
    | some l => some l
    | none => lemmas.head?
  else
    lemmas.head?

/-- The body of the loop in __call__ for a single token: pronoun tokens
get the sentinel PRON_LEMMA, other tokens the result of _get_lemma; a
falsy (empty) lemma leaves the token unchanged (the continue branch),
any other lemma is written to the token's lemma_ field.  none models a
propagated Python exception. -/
def LemmyPipelineComponent.processToken (c : LemmyPipelineComponent) (token : Token) :
    Option Token :=
  (if token.pos_ = "PRON" then some PRON_LEMMA else c._get_lemma token).map
    (fun lem => if lem = "" then token else { token with lemma_ := lem })

/-- The __call__ method of the component: apply the per-token step to
every token of the document in order, returning the (in place mutated)
document; none models a propagated Python exception. -/
def LemmyPipelineComponent.call (c : LemmyPipelineComponent) :
    List Token → Option (List Token)
  | [] => some []
  | token :: rest =>
    match c.processToken token, c.call rest with
    | some token2, some rest2 => some (token2 :: rest2)
    | _, _ => none

/-- Modelled from the spec: the error raised at load time for a language
code with no bundled resource data (the resource loading code lives in
the lemmy core package, outside this adapter file). -/
inductive LoadError where
  | ResourceNotFoundError
  deriving DecidableEq, Repr

/-- Modelled from the spec: the language codes with bundled resource
data; the package bundles data for Danish only. -/
def bundledLanguages : List String := ["da"]

/-- Modelled from the spec: the bundled Danish trained lemmatizer.  Its
rule tables are external resource data, not algorithmic code, so it is
abstracted here to the resolver's identity fallback (when no rule or
exception matches, the candidate list is exactly the word form). -/
def daLemmatizer : Lemmatizer := fun _pos word => [word]

/-- Modelled from the spec: lemmy.load (imported in the source as
load_lang), which returns the trained lemmatizer for a bundled language
code and fails with ResourceNotFoundError otherwise. -/
def load_lang (lang : String) : Except LoadError Lemmatizer :=
  if lang ∈ bundledLanguages then Except.ok daLemmatizer
  else Except.error LoadError.ResourceNotFoundError

/-- The module-level load function of component.py: load the lemmatizer
for the given language code (default "da") and wrap it in a pipeline
component; a load failure propagates to the caller. -/
def load (lang : String := "da") : Except LoadError LemmyPipelineComponent :=
  (load_lang lang).map LemmyPipelineComponent.mk

/-- List.find? returns the first element satisfying the predicate: there
is an index i whose element satisfies p, all earlier elements fail p,
and find? returns exactly the element at i. -/
theorem find?_first_index {α : Type} (p : α → Bool) :
    ∀ (l : List α), (∃ x ∈ l, p x = true) →
    ∃ i, ∃ hi : i < l.length, p (l.get ⟨i, hi⟩) = true ∧
      (∀ j (hj : j < l.length), j < i → p (l.get ⟨j, hj⟩) = false) ∧
      l.find? p = some (l.get ⟨i, hi⟩)
  | [], h => absurd h (by simp)
  | a :: t, h => by
    by_cases hp : p a = true
    · refine ⟨0, Nat.succ_pos _, hp, ?_, ?_⟩
      · intro j hj hj0
        exact absurd hj0 (Nat.not_lt_zero j)
      · simp [List.find?_cons_of_pos _ hp]
    · have hpa : p a = false := by
        cases hq : p a with
        | false => rfl
        | true => exact absurd hq hp
      have ht : ∃ x ∈ t, p x = true := by
        obtain ⟨x, hx, hpx⟩ := h
        cases hx with
        | head => exact absurd hpx hp
        | tail _ hx2 => exact ⟨x, hx2, hpx⟩
      obtain ⟨i, hi, h1, h2, h3⟩ := find?_first_index p t ht
      refine ⟨i + 1, Nat.succ_lt_succ hi, h1, ?_, ?_⟩
      · intro j hj hji
        cases j with
        | zero => exact hpa
        | succ k => exact h2 k (Nat.lt_of_succ_lt_succ hj) (Nat.lt_of_succ_lt_succ hji)
      · rw [List.find?_cons_of_neg _ (by simp [hpa])]
        exact h3

/-- C1: for every word form and every candidate sequence of length at
least 2 containing at least one element not equal (case-sensitively) to
the word form, _get_lemma returns the first such differing element in
original candidate order (all earlier candidates equal the word form). -/
theorem getLemma_first_differing (c : LemmyPipelineComponent) (tok : Token)
    (lemmas : List String) (hl : lemmas = c._internal tok.pos_ tok.text)
    (hlen : 2 ≤ lemmas.length) (hex : ∃ l ∈ lemmas, l ≠ tok.text) :
    ∃ i, ∃ hi : i < lemmas.length,
      lemmas.get ⟨i, hi⟩ ≠ tok.text ∧
      (∀ j (hj : j < lemmas.length), j < i → lemmas.get ⟨j, hj⟩ = tok.text) ∧
      c._get_lemma tok = some (lemmas.get ⟨i, hi⟩) := by
  have hex2 : ∃ x ∈ lemmas, (tok.orth_ != x) = true := by
    obtain ⟨l, hmem, hne⟩ := hex
    exact ⟨l, hmem, bne_iff_ne.mpr fun h => hne h.symm⟩
  obtain ⟨i, hi, h1, h2, h3⟩ := find?_first_index (fun l => tok.orth_ != l) lemmas hex2
  refine ⟨i, hi, ?_, ?_, ?_⟩
  · intro h
    rw [show tok.text = tok.orth_ from rfl] at h
    simp [← h] at h1
  · intro j hj hji
    have h4 := h2 j hj hji
    rw [bne_eq_false_iff_eq] at h4
    exact h4.symm
  · unfold LemmyPipelineComponent._get_lemma
    rw [← hl, if_pos (by omega), h3]

/-- C2: for every word form and every candidate sequence of length at
least 2 in which every element equals the word form, _get_lemma returns
the first element of the sequence and does not fail. -/
theorem getLemma_all_equal (c : LemmyPipelineComponent) (tok : Token)
    (lemmas : List String) (hl : lemmas = c._internal tok.pos_ tok.text)
    (hlen : 2 ≤ lemmas.length) (hall : ∀ l ∈ lemmas, l = tok.text) :
    ∃ hd, lemmas.head? = some hd ∧ c._get_lemma tok = some hd := by
  have hfind : lemmas.find? (fun l => tok.orth_ != l) = none := by
    rw [List.find?_eq_none]
    intro x hx
    have := hall x hx
    simp [this, Token.orth_]
  cases hm : lemmas with
  | nil => rw [hm] at hlen; simp at hlen
  | cons a t =>
    refine ⟨a, by simp, ?_⟩
    unfold LemmyPipelineComponent._get_lemma
    rw [← hl, if_pos (by omega), hfind, hm]
    rfl

/-- C3: for every word form and every candidate sequence of length
exactly 1, _get_lemma returns the sole element, whether or not it equals
the word form. -/
theorem getLemma_single (c : LemmyPipelineComponent) (tok : Token) (x : String)
    (hl : c._internal tok.pos_ tok.text = [x]) :
    c._get_lemma tok = some x := by
  unfold LemmyPipelineComponent._get_lemma
  rw [hl]
  simp

/-- C7: resolution is deterministic and depends only on the token's
part-of-speech tag and surface text: two tokens agreeing on pos_ and
text (whatever their current lemma fields) resolve to the same lemma
under the same wrapped lemmatizer. -/
theorem getLemma_deterministic (c : LemmyPipelineComponent) (t1 t2 : Token)
    (hp : t1.pos_ = t2.pos_) (ht : t1.text = t2.text) :
    c._get_lemma t1 = c._get_lemma t2 := by
  unfold LemmyPipelineComponent._get_lemma Token.orth_
  rw [hp, ht]

/-- C4: for every token tagged as a pronoun (pos_ = "PRON"), the
per-token step of __call__ writes the fixed pronoun sentinel PRON_LEMMA
to the token, and the result is independent of the wrapped lemmatizer:
neither the resolver nor the tie-break is consulted. -/
theorem processToken_pron (c c2 : LemmyPipelineComponent) (tok : Token)
    (hp : tok.pos_ = "PRON") :
    c.processToken tok = some { tok with lemma_ := PRON_LEMMA } ∧
    c.processToken tok = c2.processToken tok := by
  have h : ∀ d : LemmyPipelineComponent,
      d.processToken tok = some { tok with lemma_ := PRON_LEMMA } := by
    intro d
    unfold LemmyPipelineComponent.processToken
    rw [if_pos hp]
    rfl
  exact ⟨h c, (h c).trans (h c2).symm⟩

/-- C5: when the lemma computed for a token is falsy (the empty string),
the per-token step of __call__ leaves the token, and in particular its
existing lemma_ field, unchanged; running the step a second time still
leaves it unchanged. -/
theorem processToken_falsy_keeps (c : LemmyPipelineComponent) (tok : Token)
    (hf : (if tok.pos_ = "PRON" then some PRON_LEMMA else c._get_lemma tok)
      = some "") :
    c.processToken tok = some tok ∧
    (c.processToken tok).bind c.processToken = some tok := by
  have h1 : c.processToken tok = some tok := by
    unfold LemmyPipelineComponent.processToken
    rw [hf]
    rfl
  refine ⟨h1, ?_⟩
  rw [h1]
  exact h1

/-- C9: the falsy check of __call__ skips exactly the empty string: a
computed lemma equal to "" leaves the token untouched, and any non-empty
computed lemma (for example the falsy-looking string "0") is written to
the token's lemma_ field. -/
theorem processToken_writes_nonempty (c : LemmyPipelineComponent) (tok : Token)
    (s : String)
    (hs : (if tok.pos_ = "PRON" then some PRON_LEMMA else c._get_lemma tok)
      = some s) :
    c.processToken tok
      = some (if s = "" then tok else { tok with lemma_ := s }) := by
  unfold LemmyPipelineComponent.processToken
  rw [hs]
  rfl

/-- C6: under the precondition that the wrapped lemmatizer always
returns a non-empty candidate list, every per-token call of the adapter
is total: _get_lemma, the per-token step and __call__ on a whole
document all succeed (no failure path is reachable). -/
theorem adapter_total (f : Lemmatizer) (hne : ∀ p w, f p w ≠ [])
    (tok : Token) (doc : List Token) :
    ((LemmyPipelineComponent.mk f)._get_lemma tok).isSome = true ∧
    ((LemmyPipelineComponent.mk f).processToken tok).isSome = true ∧
    ((LemmyPipelineComponent.mk f).call doc).isSome = true := by
  have hg : ∀ t : Token,
      ((LemmyPipelineComponent.mk f)._get_lemma t).isSome = true := by
    intro t
    unfold LemmyPipelineComponent._get_lemma
    have hh : (f t.pos_ t.text).head?.isSome = true := by
      cases hm : f t.pos_ t.text with
      | nil => exact absurd hm (hne t.pos_ t.text)
      | cons a l => rfl
    by_cases hlen : (f t.pos_ t.text).length ≠ 1
    · rw [if_pos hlen]
      cases hfind : (f t.pos_ t.text).find? (fun l => t.orth_ != l) with
      | some l => rfl
      | none => exact hh
    · rw [if_neg hlen]
      exact hh
  have hp : ∀ t : Token,
      ((LemmyPipelineComponent.mk f).processToken t).isSome = true := by
    intro t
    unfold LemmyPipelineComponent.processToken
    by_cases hpos : t.pos_ = "PRON"
    · rw [if_pos hpos]
      rfl
    · rw [if_neg hpos]
      obtain ⟨l, hl⟩ := Option.isSome_iff_exists.mp (hg t)
      rw [hl]
      rfl
  refine ⟨hg tok, hp tok, ?_⟩
  induction doc with
  | nil => rfl
  | cons t rest ih =>
    unfold LemmyPipelineComponent.call
    obtain ⟨t2, ht2⟩ := Option.isSome_iff_exists.mp (hp t)
    obtain ⟨rest2, hrest2⟩ := Option.isSome_iff_exists.mp ih
    rw [ht2, hrest2]
    rfl

/-- C8: for every language code with no bundled resource data, loading
fails with ResourceNotFoundError, both in the resource loader itself and
as surfaced unchanged to the caller of the module-level load function. -/
theorem load_unknown_language (lang : String) (h : lang ∉ bundledLanguages) :
    load_lang lang = Except.error LoadError.ResourceNotFoundError ∧
    load lang = Except.error LoadError.ResourceNotFoundError := by
  have h1 : load_lang lang = Except.error LoadError.ResourceNotFoundError := by
    unfold load_lang
    rw [if_neg h]
  refine ⟨h1, ?_⟩
  unfold load
  rw [h1]
  rfl

/-- C10: calling the module-level load function with no argument loads
the lemmatizer for the default language code "da" and returns a pipeline
component wrapping that lemmatizer. -/
theorem load_default_da :
    (load : Except LoadError LemmyPipelineComponent) = load "da" ∧
    load "da" = Except.ok (LemmyPipelineComponent.mk daLemmatizer) :=
  ⟨rfl, rfl⟩

/-- Witness for C1 at a concrete input: candidates ["running", "run"]
for word form "running" resolve to "run", the first differing one. -/
theorem getLemma_first_differing_witness :
    ∃ i, ∃ hi : i < (["running", "run"] : List String).length,
      (["running", "run"] : List String).get ⟨i, hi⟩
        ≠ (⟨"VERB", "running", "x"⟩ : Token).text ∧
      (∀ j (hj : j < (["running", "run"] : List String).length), j < i →
        (["running", "run"] : List String).get ⟨j, hj⟩
          = (⟨"VERB", "running", "x"⟩ : Token).text) ∧
      LemmyPipelineComponent._get_lemma ⟨fun _ _ => ["running", "run"]⟩
        ⟨"VERB", "running", "x"⟩
        = some ((["running", "run"] : List String).get ⟨i, hi⟩) :=
  getLemma_first_differing ⟨fun _ _ => ["running", "run"]⟩ ⟨"VERB", "running", "x"⟩
    ["running", "run"] rfl (by decide) ⟨"run", by decide, by decide⟩

/-- Witness for C2 at a concrete input: candidates ["sheep", "sheep"]
for word form "sheep" resolve to the first element "sheep". -/
theorem getLemma_all_equal_witness :
    ∃ hd, (["sheep", "sheep"] : List String).head? = some hd ∧
      LemmyPipelineComponent._get_lemma ⟨fun _ _ => ["sheep", "sheep"]⟩
        ⟨"NOUN", "sheep", ""⟩ = some hd :=
  getLemma_all_equal ⟨fun _ _ => ["sheep", "sheep"]⟩ ⟨"NOUN", "sheep", ""⟩
    ["sheep", "sheep"] rfl (by decide) (by decide)

/-- Witness for C3 at a concrete input: the sole candidate "goose" for
word form "geese" is returned. -/
theorem getLemma_single_witness :
    LemmyPipelineComponent._get_lemma ⟨fun _ _ => ["goose"]⟩
      ⟨"NOUN", "geese", ""⟩ = some "goose" :=
  getLemma_single ⟨fun _ _ => ["goose"]⟩ ⟨"NOUN", "geese", ""⟩ "goose" rfl

/-- Witness for C4 at a concrete input: the pronoun token "him" gets the
sentinel lemma under two different wrapped lemmatizers. -/
theorem processToken_pron_witness :
    (⟨fun _ _ => ["a"]⟩ : LemmyPipelineComponent).processToken
      ⟨"PRON", "him", "old"⟩ = some (⟨"PRON", "him", PRON_LEMMA⟩ : Token) ∧
    (⟨fun _ _ => ["a"]⟩ : LemmyPipelineComponent).processToken
      ⟨"PRON", "him", "old"⟩
      = (⟨fun _ _ => ["b"]⟩ : LemmyPipelineComponent).processToken
        ⟨"PRON", "him", "old"⟩ :=
  processToken_pron ⟨fun _ _ => ["a"]⟩ ⟨fun _ _ => ["b"]⟩
    ⟨"PRON", "him", "old"⟩ rfl

/-- Witness for C5 at a concrete input: a resolved empty-string lemma
leaves the token with its existing lemma "old", once and twice. -/
theorem processToken_falsy_keeps_witness :
    (⟨fun _ _ => [""]⟩ : LemmyPipelineComponent).processToken
      ⟨"NOUN", "x", "old"⟩ = some ⟨"NOUN", "x", "old"⟩ ∧
    ((⟨fun _ _ => [""]⟩ : LemmyPipelineComponent).processToken
      ⟨"NOUN", "x", "old"⟩).bind
        (⟨fun _ _ => [""]⟩ : LemmyPipelineComponent).processToken
      = some ⟨"NOUN", "x", "old"⟩ :=
  processToken_falsy_keeps ⟨fun _ _ => [""]⟩ ⟨"NOUN", "x", "old"⟩ rfl

/-- Witness for C9 at a concrete input: the falsy-looking but non-empty
lemma "0" is written to the token. -/
theorem processToken_writes_nonempty_witness :
    (⟨fun _ _ => ["0"]⟩ : LemmyPipelineComponent).processToken
      ⟨"NOUN", "nul", "old"⟩ = some ⟨"NOUN", "nul", "0"⟩ :=
  processToken_writes_nonempty ⟨fun _ _ => ["0"]⟩ ⟨"NOUN", "nul", "old"⟩ "0" rfl

/-- Witness for C6 at a concrete input: with the identity-fallback
lemmatizer, resolution and the adapter succeed on a concrete token and
document. -/
theorem adapter_total_witness :
    (LemmyPipelineComponent._get_lemma (LemmyPipelineComponent.mk (fun _ w => [w]))
      ⟨"NOUN", "cats", ""⟩).isSome = true ∧
    ((LemmyPipelineComponent.mk (fun _ w => [w])).processToken
      ⟨"NOUN", "cats", ""⟩).isSome = true ∧
    ((LemmyPipelineComponent.mk (fun _ w => [w])).call
      [⟨"NOUN", "cats", ""⟩, ⟨"PRON", "him", ""⟩]).isSome = true :=
  adapter_total (fun _ w => [w]) (fun p w => by simp) ⟨"NOUN", "cats", ""⟩
    [⟨"NOUN", "cats", ""⟩, ⟨"PRON", "him", ""⟩]

/-- Witness for C7 at a concrete input: two tokens sharing pos_ and text
but with different current lemma fields resolve identically. -/
theorem getLemma_deterministic_witness :
    LemmyPipelineComponent._get_lemma ⟨fun _ _ => ["goose"]⟩
      ⟨"NOUN", "geese", "x"⟩
      = LemmyPipelineComponent._get_lemma ⟨fun _ _ => ["goose"]⟩
        ⟨"NOUN", "geese", "y"⟩ :=
  getLemma_deterministic ⟨fun _ _ => ["goose"]⟩ ⟨"NOUN", "geese", "x"⟩
    ⟨"NOUN", "geese", "y"⟩ rfl rfl

/-- Witness for C8 at a concrete input: the unsupported language code
"xx" fails to load with ResourceNotFoundError. -/
theorem load_unknown_language_witness :
    load_lang "xx" = Except.error LoadError.ResourceNotFoundError ∧
    load "xx" = Except.error LoadError.ResourceNotFoundError :=
  load_unknown_language "xx" (by decide)

